import Mathlib

/-!
Shallow embedding of the contact-directory core of the repository
(`src/homework/goit-pycore-hw-08/addressbook.py`): validated fields
(`Phone`, `Birthday`), the `Record` aggregate, the `AddressBook`
collection, the upcoming-birthday query with weekend roll, and the
whole-book persistence adapter.

Modelling conventions:
* Python `datetime.date` values are `Date` triples (year, month, day);
  `Date.toOrdinal` is CPython's proleptic-Gregorian `date.toordinal`,
  and `Date.weekday` is CPython's `date.weekday` (Monday = 0 .. Sunday = 6).
* Adding a `timedelta(days = k)` is `k` applications of the calendar
  successor `Date.nextDay`.
* Python exceptions (`ValueError` from validation) are modelled with
  `Option` / `Except`: `none` / `.error` is "raises".
* Python's `str.isdigit` is modelled at the ASCII level: non-empty and
  all characters in `'0'..'9'`.
* The strings `f"{name}: {formatted}"` produced by
  `get_upcoming_birthdays` are modelled as (name, celebration date)
  pairs; the `%A %d.%m.%Y` rendering carries exactly those two values.
-/

namespace AddressBookPy

/-- A Python `datetime.date`-style value: (year, month, day). -/
structure Date where
  year : Nat
  month : Nat
  day : Nat
deriving DecidableEq, Repr

/-- Gregorian leap-year rule, as in CPython `datetime._is_leap`. -/
def isLeap (y : Nat) : Bool :=
  (y % 4 == 0 && y % 100 != 0) || y % 400 == 0

/-- Days in a month, as in CPython `datetime._days_in_month`. -/
def daysInMonth (y m : Nat) : Nat :=
  if m == 2 then (if isLeap y then 29 else 28)
  else if m == 4 || m == 6 || m == 9 || m == 11 then 30
  else 31

/-- Structural validity of a date triple (CPython `date` also caps the
year at 9999; we track that bound separately where it matters). -/
def Date.Valid (d : Date) : Prop :=
  1 ≤ d.year ∧ 1 ≤ d.month ∧ d.month ≤ 12 ∧ 1 ≤ d.day ∧ d.day ≤ daysInMonth d.year d.month

instance (d : Date) : Decidable d.Valid := by
  unfold Date.Valid; infer_instance

/-- Days in all full years before year `y`, as in CPython
`datetime._days_before_year`. -/
def daysBeforeYear (y : Nat) : Nat :=
  (y - 1) * 365 + (y - 1) / 4 - (y - 1) / 100 + (y - 1) / 400

/-- Days in all full months of year `y` before month `m`, as in CPython
`datetime._days_before_month`. -/
def daysBeforeMonth (y m : Nat) : Nat :=
  (match m with
   | 1 => 0 | 2 => 31 | 3 => 59 | 4 => 90 | 5 => 120 | 6 => 151
   | 7 => 181 | 8 => 212 | 9 => 243 | 10 => 273 | 11 => 304 | _ => 334)
  + (if m > 2 && isLeap y then 1 else 0)

/-- CPython `date.toordinal`: day 1 is 0001-01-01. -/
def Date.toOrdinal (d : Date) : Nat :=
  daysBeforeYear d.year + daysBeforeMonth d.year d.month + d.day

/-- CPython `date.weekday`: Monday = 0 .. Sunday = 6. -/
def Date.weekday (d : Date) : Nat :=
  (d.toOrdinal + 6) % 7

/-- Calendar successor (the effect of `+ timedelta(days=1)`). -/
def Date.nextDay (d : Date) : Date :=
  if d.day < daysInMonth d.year d.month then ⟨d.year, d.month, d.day + 1⟩
  else if d.month < 12 then ⟨d.year, d.month + 1, 1⟩
  else ⟨d.year + 1, 1, 1⟩

/-- `d + timedelta(days=k)` as `k` calendar successors. -/
def Date.addDays (d : Date) : Nat → Date
  | 0 => d
  | k + 1 => (d.addDays k).nextDay

/-- CPython `date.__le__`: lexicographic on (year, month, day). -/
def Date.le (a b : Date) : Bool :=
  a.year < b.year ||
  (a.year == b.year &&
    (a.month < b.month || (a.month == b.month && a.day ≤ b.day)))

/-- CPython `date.replace(year=y)`: re-runs the constructor checks;
`none` models the `ValueError` (e.g. Feb 29 projected onto a non-leap
year, or a year outside 1..9999). -/
def Date.replaceYear (d : Date) (y : Nat) : Option Date :=
  if 1 ≤ y ∧ y ≤ 9999 ∧ 1 ≤ d.month ∧ d.month ≤ 12 ∧ 1 ≤ d.day ∧ d.day ≤ daysInMonth y d.month
  then some ⟨y, d.month, d.day⟩ else none

-- Concrete validation of the calendar model against known dates:
-- 2024-01-01 and 2024-01-08 are Mondays.
example : (Date.mk 2024 1 1).weekday = 0 := by decide
example : (Date.mk 2024 1 8).weekday = 0 := by decide
example : (Date.mk 2024 1 1).addDays 7 = Date.mk 2024 1 8 := by decide
example : (Date.mk 2023 12 31).nextDay = Date.mk 2024 1 1 := by decide

theorem daysInMonth_pos (y m : Nat) : 1 ≤ daysInMonth y m := by
  unfold daysInMonth
  split
  · split <;> omega
  · split <;> omega

/-- Validity is preserved by the calendar successor. -/
theorem Date.nextDay_valid {d : Date} (h : d.Valid) : d.nextDay.Valid := by
  obtain ⟨h1, h2, h3, h4, h5⟩ := h
  unfold Date.nextDay
  split
  · rename_i hlt
    exact ⟨h1, h2, h3, by show 1 ≤ d.day + 1; omega,
      by show d.day + 1 ≤ daysInMonth d.year d.month; omega⟩
  · split
    · rename_i hm
      exact ⟨h1, by show 1 ≤ d.month + 1; omega, by show d.month + 1 ≤ 12; omega,
        le_refl 1, by show 1 ≤ daysInMonth d.year (d.month + 1); exact daysInMonth_pos _ _⟩
    · exact ⟨by show 1 ≤ d.year + 1; omega, le_refl 1, by norm_num,
        le_refl 1, by show 1 ≤ daysInMonth (d.year + 1) 1; exact daysInMonth_pos _ _⟩

theorem isLeap_iff (y : Nat) :
    isLeap y = true ↔ ((y % 4 = 0 ∧ y % 100 ≠ 0) ∨ y % 400 = 0) := by
  simp [isLeap]

theorem daysBeforeMonth_succ (y m : Nat) (h1 : 1 ≤ m) (h2 : m ≤ 11) :
    daysBeforeMonth y (m + 1) = daysBeforeMonth y m + daysInMonth y m := by
  interval_cases m <;> cases hL : isLeap y <;>
    simp [daysBeforeMonth, daysInMonth, hL]

set_option maxHeartbeats 1600000 in
theorem daysBeforeYear_succ (y : Nat) (h : 1 ≤ y) :
    daysBeforeYear (y + 1) = daysBeforeYear y + 365 + (if isLeap y then 1 else 0) := by
  cases hL : isLeap y
  · have hnL : ¬((y % 4 = 0 ∧ y % 100 ≠ 0) ∨ y % 400 = 0) := by
      rw [← isLeap_iff]; simp [hL]
    show (y + 1 - 1) * 365 + (y + 1 - 1) / 4 - (y + 1 - 1) / 100 + (y + 1 - 1) / 400
      = (y - 1) * 365 + (y - 1) / 4 - (y - 1) / 100 + (y - 1) / 400 + 365 + 0
    simp only [Nat.add_sub_cancel]
    omega
  · have hyL : (y % 4 = 0 ∧ y % 100 ≠ 0) ∨ y % 400 = 0 := (isLeap_iff y).mp hL
    show (y + 1 - 1) * 365 + (y + 1 - 1) / 4 - (y + 1 - 1) / 100 + (y + 1 - 1) / 400
      = (y - 1) * 365 + (y - 1) / 4 - (y - 1) / 100 + (y - 1) / 400 + 365 + 1
    simp only [Nat.add_sub_cancel]
    omega

/-- The ordinal of the calendar successor is one more: the crux calendar
lemma behind weekday arithmetic. -/
theorem Date.toOrdinal_nextDay {d : Date} (h : d.Valid) :
    d.nextDay.toOrdinal = d.toOrdinal + 1 := by
  obtain ⟨h1, h2, h3, h4, h5⟩ := h
  unfold Date.nextDay
  split
  · show daysBeforeYear d.year + daysBeforeMonth d.year d.month + (d.day + 1)
      = daysBeforeYear d.year + daysBeforeMonth d.year d.month + d.day + 1
    omega
  · rename_i hlt
    have hday : d.day = daysInMonth d.year d.month := by omega
    split
    · rename_i hm
      show daysBeforeYear d.year + daysBeforeMonth d.year (d.month + 1) + 1
        = daysBeforeYear d.year + daysBeforeMonth d.year d.month + d.day + 1
      rw [daysBeforeMonth_succ d.year d.month h2 (by omega)]
      omega
    · rename_i hm
      have hm12 : d.month = 12 := by omega
      have hdim : daysInMonth d.year 12 = 31 := by simp [daysInMonth]
      have hdbm1 : daysBeforeMonth (d.year + 1) 1 = 0 := by simp [daysBeforeMonth]
      have hdbm12 : daysBeforeMonth d.year 12 = 334 + (if isLeap d.year then 1 else 0) := by
        simp [daysBeforeMonth]
      have hd31 : d.day = 31 := by rw [hm12] at hday; omega
      show daysBeforeYear (d.year + 1) + daysBeforeMonth (d.year + 1) 1 + 1
        = daysBeforeYear d.year + daysBeforeMonth d.year d.month + d.day + 1
      rw [daysBeforeYear_succ d.year h1, hdbm1, hm12, hdbm12]
      omega

theorem Date.addDays_valid (k : Nat) {d : Date} (h : d.Valid) : (d.addDays k).Valid := by
  induction k with
  | zero => exact h
  | succ n ih => exact Date.nextDay_valid ih

theorem Date.toOrdinal_addDays (k : Nat) {d : Date} (h : d.Valid) :
    (d.addDays k).toOrdinal = d.toOrdinal + k := by
  induction k with
  | zero => rfl
  | succ n ih =>
    show (Date.addDays d n).nextDay.toOrdinal = d.toOrdinal + (n + 1)
    rw [Date.toOrdinal_nextDay (Date.addDays_valid n h), ih]
    omega

/-- Weekday arithmetic: adding `k` days advances the weekday by `k` mod 7. -/
theorem Date.weekday_addDays (k : Nat) {d : Date} (h : d.Valid) :
    (d.addDays k).weekday = (d.weekday + k) % 7 := by
  unfold Date.weekday
  rw [Date.toOrdinal_addDays k h]
  omega

-- ========================= VALIDATED FIELDS =========================

/-- ASCII model of Python `str.isdigit`: non-empty and every character
is a decimal digit `'0'..'9'`. -/
def pyIsDigit (s : String) : Bool :=
  !s.toList.isEmpty && s.toList.all Char.isDigit

/-- `Phone` field: wraps the raw string, as `Field.value` does. -/
structure Phone where
  value : String
deriving DecidableEq, Repr

/-- `Phone.__init__`: `_validate` raises unless the string is exactly 10
digits (`if not value.isdigit() or len(value) != 10: raise ValueError`);
`none` models the raised `ValueError`. -/
def Phone.ofString (s : String) : Option Phone :=
  if !pyIsDigit s || s.length != 10 then none else some ⟨s⟩

-- ================= BIRTHDAY PARSING (strptime "%d.%m.%Y") =================

/-- Numeric value of a digit character. -/
def digitVal (c : Char) : Nat := c.toNat - 48

/-- Alternatives (in regex order) for CPython strptime's `%d` pattern
`3[01]|[12]\d|0[1-9]|[1-9]`: each entry is (parsed day, remaining input). -/
def dayAlts : List Char → List (Nat × List Char)
  | c1 :: c2 :: rest =>
    (if c1 = '3' ∧ (c2 = '0' ∨ c2 = '1') then [(30 + digitVal c2, rest)] else [])
    ++ (if (c1 = '1' ∨ c1 = '2') ∧ c2.isDigit then [(10 * digitVal c1 + digitVal c2, rest)] else [])
    ++ (if c1 = '0' ∧ ('1' ≤ c2 ∧ c2 ≤ '9') then [(digitVal c2, rest)] else [])
    ++ (if '1' ≤ c1 ∧ c1 ≤ '9' then [(digitVal c1, c2 :: rest)] else [])
  | [c1] => if '1' ≤ c1 ∧ c1 ≤ '9' then [(digitVal c1, [])] else []
  | [] => []

/-- Alternatives (in regex order) for CPython strptime's `%m` pattern
`1[0-2]|0[1-9]|[1-9]`. -/
def monthAlts : List Char → List (Nat × List Char)
  | c1 :: c2 :: rest =>
    (if c1 = '1' ∧ (c2 = '0' ∨ c2 = '1' ∨ c2 = '2') then [(10 + digitVal c2, rest)] else [])
    ++ (if c1 = '0' ∧ ('1' ≤ c2 ∧ c2 ≤ '9') then [(digitVal c2, rest)] else [])
    ++ (if '1' ≤ c1 ∧ c1 ≤ '9' then [(digitVal c1, c2 :: rest)] else [])
  | [c1] => if '1' ≤ c1 ∧ c1 ≤ '9' then [(digitVal c1, [])] else []
  | [] => []

/-- CPython strptime's `%Y` pattern `\d\d\d\d`: exactly four digits. -/
def year4 : List Char → Option (Nat × List Char)
  | a :: b :: c :: d :: rest =>
    if a.isDigit ∧ b.isDigit ∧ c.isDigit ∧ d.isDigit then
      some (1000 * digitVal a + 100 * digitVal b + 10 * digitVal c + digitVal d, rest)
    else none
  | _ => none

/-- Regex backtracking: try the alternatives in order, return the first
continuation that fully succeeds. -/
def tryAlts {α : Type} (alts : List (Nat × List Char)) (k : Nat → List Char → Option α) :
    Option α :=
  match alts with
  | [] => none
  | (v, r) :: rest =>
    match k v r with
    | some x => some x
    | none => tryAlts rest k

/-- After day, dot and month, dot: a four-digit year must consume the
rest of the input (strptime requires the regex to span the whole
string). -/
def parseYearEnd (d m : Nat) (cs4 : List Char) : Option (Nat × Nat × Nat) :=
  match year4 cs4 with
  | some (y, []) => some (d, m, y)
  | _ => none

/-- After day, dot and a month alternative: literal dot, then the year. -/
def parseMonthCont (d m : Nat) (cs3 : List Char) : Option (Nat × Nat × Nat) :=
  match cs3 with
  | '.' :: cs4 => parseYearEnd d m cs4
  | _ => none

/-- After a day alternative: literal dot, then the month alternatives. -/
def parseDayCont (d : Nat) (cs1 : List Char) : Option (Nat × Nat × Nat) :=
  match cs1 with
  | '.' :: cs2 => tryAlts (monthAlts cs2) (parseMonthCont d)
  | _ => none

/-- `datetime.strptime(s, "%d.%m.%Y")`'s regex match: day, literal dot,
month, literal dot, four-digit year, end of input; alternatives resolved
by regex backtracking order. -/
def parseDMY (cs : List Char) : Option (Nat × Nat × Nat) :=
  tryAlts (dayAlts cs) parseDayCont

/-- `Birthday.__init__`: parse `DD.MM.YYYY` via strptime, then build the
`date` (which re-checks day against the month length and the year range);
`none` models the `ValueError` re-raised as the validation error. -/
def Birthday.ofString (s : String) : Option Date :=
  match parseDMY s.toList with
  | some (d, m, y) =>
    if 1 ≤ y ∧ y ≤ 9999 ∧ 1 ≤ m ∧ m ≤ 12 ∧ 1 ≤ d ∧ d ≤ daysInMonth y m then
      some ⟨y, m, d⟩
    else none
  | none => none

/-- Two-digit zero-padded rendering (strftime `%d` / `%m`). -/
def pad2 (n : Nat) : List Char :=
  [Char.ofNat (48 + n / 10 % 10), Char.ofNat (48 + n % 10)]

/-- Four-digit zero-padded rendering (strftime `%Y`). -/
def pad4 (n : Nat) : List Char :=
  [Char.ofNat (48 + n / 1000 % 10), Char.ofNat (48 + n / 100 % 10),
   Char.ofNat (48 + n / 10 % 10), Char.ofNat (48 + n % 10)]

/-- `Birthday.__str__`: `value.strftime("%d.%m.%Y")`. -/
def Birthday.toText (d : Date) : String :=
  ⟨pad2 d.day ++ '.' :: pad2 d.month ++ '.' :: pad4 d.year⟩

-- Concrete validation of the field models against CPython behaviour.
example : Birthday.ofString "29.03.1998" = some ⟨1998, 3, 29⟩ := by decide
example : Birthday.ofString "29.02.2023" = none := by decide
example : Birthday.ofString "29.02.2024" = some ⟨2024, 2, 29⟩ := by decide
example : Birthday.ofString "1.1.2023" = some ⟨2023, 1, 1⟩ := by decide
example : Birthday.ofString "31.04.2023" = none := by decide
example : Birthday.ofString "00.01.2023" = none := by decide
example : Birthday.ofString "31.12.9999" = some ⟨9999, 12, 31⟩ := by decide
example : Birthday.ofString "01.01.0000" = none := by decide
example : Birthday.toText ⟨1998, 3, 29⟩ = "29.03.1998" := by decide
example : Phone.ofString "1234567890" = some ⟨"1234567890"⟩ := by decide
example : Phone.ofString "123456789" = none := by decide
example : Phone.ofString "12345678901" = none := by decide
example : Phone.ofString "12345678a0" = none := by decide

-- =========================== RECORD ===========================

/-- `Record`: required name, ordered phones, optional birthday. The
`Name` field wrapper only carries its `.value` string. -/
structure Record where
  name : String
  phones : List Phone
  birthday : Option Date
deriving DecidableEq, Repr

/-- `Record.__init__(contact_name)`. -/
def Record.make (contact_name : String) : Record :=
  ⟨contact_name, [], none⟩

/-- `Record.find_phone`: first phone whose `.value` equals the argument. -/
def Record.find_phone (r : Record) (phone : String) : Option Phone :=
  r.phones.find? (fun p => p.value == phone)

/-- `Record.add_phone`: validates and appends (`none` models the
`ValueError` from `Phone.__init__`). -/
def Record.add_phone (r : Record) (phone : String) : Option Record :=
  match Phone.ofString phone with
  | some p => some { r with phones := r.phones ++ [p] }
  | none => none

/-- `list.remove(phone_obj)` where `phone_obj` is the first phone with
the given value: drop that first occurrence. -/
def removeFirstPhone : List Phone → String → List Phone
  | [], _ => []
  | p :: rest, v => if p.value = v then rest else p :: removeFirstPhone rest v

/-- `Record.remove_phone`: remove the first matching phone, silently
doing nothing when absent. -/
def Record.remove_phone (r : Record) (phone : String) : Record :=
  match r.find_phone phone with
  | some _ => { r with phones := removeFirstPhone r.phones phone }
  | none => r

/-- `Record.edit_phone(old, new)`: if `old` is found, it is removed and
only then is `Phone(new)` constructed and appended; `.error` carries the
record state left behind when `Phone(new)` raises. When `old` is absent
nothing happens (and `new` is never validated). -/
def Record.edit_phone (r : Record) (old_phone new_phone : String) :
    Except Record Record :=
  match r.find_phone old_phone with
  | none => .ok r
  | some _ =>
    let removed := { r with phones := removeFirstPhone r.phones old_phone }
    match Phone.ofString new_phone with
    | none => .error removed
    | some p => .ok { removed with phones := removed.phones ++ [p] }

/-- `Record.add_birthday`: validates and replaces unconditionally. -/
def Record.add_birthday (r : Record) (birthday : String) : Option Record :=
  match Birthday.ofString birthday with
  | some d => some { r with birthday := some d }
  | none => none

-- =========================== ADDRESSBOOK ===========================

/-- The `UserDict` backing store: insertion-ordered key/record pairs
with unique keys, as a Python `dict` iterates. -/
abbrev AddressBook := List (String × Record)

/-- `dict.__setitem__`: overwrite in place if the key exists, otherwise
append at the end. -/
def dictSet (book : AddressBook) (k : String) (r : Record) : AddressBook :=
  match book with
  | [] => [(k, r)]
  | (k', r') :: rest => if k' = k then (k, r) :: rest else (k', r') :: dictSet rest k r

/-- `AddressBook.add_record`: stores the record under its own name. -/
def AddressBook.add_record (book : AddressBook) (r : Record) : AddressBook :=
  dictSet book r.name r

/-- `AddressBook.find`: `dict.get`. -/
def AddressBook.find (book : AddressBook) (contact_name : String) : Option Record :=
  (book.find? (fun p => p.1 == contact_name)).map Prod.snd

/-- `AddressBook.delete`: `del` guarded by a membership test. -/
def AddressBook.delete (book : AddressBook) (contact_name : String) : AddressBook :=
  book.filter (fun p => p.1 != contact_name)

-- ================== UPCOMING BIRTHDAYS QUERY ==================

/-- One iteration of the `get_upcoming_birthdays` loop for a single
record: `.error` models the uncaught `ValueError` from
`replace(year=today.year)`; `.ok none` means the record contributes no
entry; `.ok (some (name, celebration))` is the appended entry (the
`f"{name}: {formatted}"` string carries exactly the name and the
post-roll celebration date). -/
def upcomingEntry (today : Date) (r : Record) : Except Unit (Option (String × Date)) :=
  match r.birthday with
  | none => .ok none
  | some b =>
    match b.replaceYear today.year with
    | none => .error ()
    | some birthday =>
      if Date.le today birthday ∧ Date.le birthday (today.addDays 7) then
        .ok (some (r.name,
          if birthday.weekday ≥ 5 then birthday.addDays (7 - birthday.weekday)
          else birthday))
      else .ok none

/-- The `for record in self.data.values()` loop, accumulating entries in
iteration order and propagating the first uncaught exception. -/
def upcomingAux (today : Date) : List (String × Record) → Except Unit (List (String × Date))
  | [] => .ok []
  | (_, r) :: rest =>
    match upcomingEntry today r with
    | .error e => .error e
    | .ok none => upcomingAux today rest
    | .ok (some entry) =>
      match upcomingAux today rest with
      | .error e => .error e
      | .ok l => .ok (entry :: l)

/-- `AddressBook.get_upcoming_birthdays`, with `datetime.today().date()`
made an explicit `today` parameter. -/
def AddressBook.get_upcoming_birthdays (book : AddressBook) (today : Date) :
    Except Unit (List (String × Date)) :=
  upcomingAux today book

-- ======================= FILE OPERATIONS =======================

/-- A pickled record: the object graph `Record` flattened to its field
values (name string, phone strings in order, optional date). -/
structure PickledRecord where
  name : String
  phones : List String
  birthday : Option Date
deriving DecidableEq, Repr

/-- A pickled `AddressBook`: its ordered key/record items. -/
abbrev Pickle := List (String × PickledRecord)

/-- The file system visible to `save_data` / `load_data`: file name to
pickled content. -/
abbrev FileSystem := List (String × Pickle)

/-- `pickle.dump`: serialize the whole book (every record and every
nested field value). -/
def pickleDump (book : AddressBook) : Pickle :=
  book.map fun p => (p.1, ⟨p.2.name, p.2.phones.map Phone.value, p.2.birthday⟩)

/-- `pickle.load`: rebuild the object graph from the serialized fields. -/
def pickleLoad (pk : Pickle) : AddressBook :=
  pk.map fun p => (p.1, ⟨p.2.name, p.2.phones.map Phone.mk, p.2.birthday⟩)

/-- Write a file (`open(filename, "wb")` + write). -/
def fsWrite (fs : FileSystem) (filename : String) (content : Pickle) : FileSystem :=
  match fs with
  | [] => [(filename, content)]
  | (n, c) :: rest =>
    if n = filename then (filename, content) :: rest else (n, c) :: fsWrite rest filename content

/-- `os.path.exists` + read. -/
def fsRead (fs : FileSystem) (filename : String) : Option Pickle :=
  (fs.find? (fun p => p.1 == filename)).map Prod.snd

/-- `save_data(book, filename)`. -/
def save_data (fs : FileSystem) (book : AddressBook) (filename : String) : FileSystem :=
  fsWrite fs filename (pickleDump book)

/-- `load_data(filename)`: a fresh empty `AddressBook` when the file
does not exist. -/
def load_data (fs : FileSystem) (filename : String) : AddressBook :=
  match fsRead fs filename with
  | some pk => pickleLoad pk
  | none => []

-- =========================== CLAIM C2 ===========================

/-- **C2.** Constructing a Phone from `s` fails (raises the validation
error, i.e. returns `none`) when `s` has length ≠ 10 or contains a
non-digit character, and succeeds with stored value `s` when `s` is
exactly 10 decimal digits. -/
theorem phone_construction_spec (s : String) :
    ((s.length ≠ 10 ∨ ∃ c ∈ s.data, ¬ c.isDigit) → Phone.ofString s = none) ∧
    (s.length = 10 → (∀ c ∈ s.data, c.isDigit) → Phone.ofString s = some ⟨s⟩) := by
  constructor
  · rintro (h | ⟨c, hc, hcd⟩)
    · have hne : (s.length != 10) = true := by simpa using h
      simp [Phone.ofString, hne]
    · have hall : s.data.all Char.isDigit = false := by
        rw [List.all_eq_false]
        exact ⟨c, hc, by simpa using hcd⟩
      simp [Phone.ofString, pyIsDigit, String.toList, hall]
  · intro h1 h2
    have hall : s.data.all Char.isDigit = true := by
      rw [List.all_eq_true]; intro c hc; exact h2 c hc
    have hlen : s.data.length = 10 := h1
    have hne : s.data.isEmpty = false := by
      cases hd : s.data
      · rw [hd] at hlen; simp at hlen
      · simp [hd]
    simp [Phone.ofString, pyIsDigit, String.toList, hall, hne, h1]

/-- **C2 witness.** -/
theorem phone_construction_spec_witness :
    Phone.ofString "1234567890" = some ⟨"1234567890"⟩ ∧ Phone.ofString "12a4567890" = none := by
  constructor
  · exact (phone_construction_spec "1234567890").2 (by decide) (by decide)
  · exact (phone_construction_spec "12a4567890").1 (Or.inr ⟨'a', by decide, by decide⟩)

-- =========================== CLAIM C7 ===========================

/-- **C7.** When the target file does not exist, `load_data` returns a
fresh empty address book instead of raising. -/
theorem load_data_missing_file (fs : FileSystem) (target : String)
    (h : fsRead fs target = none) : load_data fs target = [] := by
  unfold load_data
  rw [h]

/-- **C7 witness.** -/
theorem load_data_missing_file_witness : load_data [] "addressbook.pkl" = [] :=
  load_data_missing_file [] "addressbook.pkl" rfl

-- =========================== CLAIM C4 ===========================

theorem fsRead_fsWrite (fs : FileSystem) (f : String) (pk : Pickle) :
    fsRead (fsWrite fs f pk) f = some pk := by
  induction fs with
  | nil => simp [fsWrite, fsRead]
  | cons p rest ih =>
    by_cases h : p.1 = f
    · simp [fsWrite, h, fsRead]
    · simpa [fsWrite, h, fsRead, List.find?] using ih

theorem pickleLoad_pickleDump (book : AddressBook) : pickleLoad (pickleDump book) = book := by
  unfold pickleLoad pickleDump
  rw [List.map_map]
  have : ∀ l : List Phone, (l.map Phone.value).map Phone.mk = l := by
    intro l
    induction l with
    | nil => rfl
    | cons p rest ih => simp [ih]
  conv_rhs => rw [(List.map_id book).symm]
  apply List.map_congr_left
  intro p _
  simp [this p.2.phones]

/-- **C4.** Loading the result of saving a Directory yields a Directory
equal to it: the same names in the same places, each with the same phone
sequence and the same (optional) birthday. -/
theorem load_save_roundtrip (fs : FileSystem) (book : AddressBook) (f : String) :
    load_data (save_data fs book f) f = book := by
  unfold save_data load_data
  rw [fsRead_fsWrite]
  exact pickleLoad_pickleDump book

-- =========================== CLAIM C6 ===========================

theorem find_phone_eq_none_iff (r : Record) (v : String) :
    r.find_phone v = none ↔ ∀ p ∈ r.phones, p.value ≠ v := by
  simp [Record.find_phone, List.find?_eq_none]

theorem removeFirstPhone_map_value (l : List Phone) (v : String) :
    (removeFirstPhone l v).map Phone.value = (l.map Phone.value).erase v := by
  induction l with
  | nil => rfl
  | cons p rest ih =>
    by_cases h : p.value = v
    · simp [removeFirstPhone, h, List.erase_cons_head]
    · simp only [removeFirstPhone, if_neg h, List.map_cons]
      rw [List.erase_cons_tail (by simpa using h), ih]

/-- **C6.** `edit_phone(old, new)`: when a phone equal to `old` exists
and `new` validates, the first `old` is removed and `new` is appended at
the end (remove-then-append); when `old` exists but `new` is invalid the
call raises; when `old` is absent the call is a silent no-op (the record
is returned unchanged and `new` is never validated) rather than an
error. -/
theorem edit_phone_semantics (r : Record) (old_phone new_phone : String) :
    (r.find_phone old_phone = none → r.edit_phone old_phone new_phone = .ok r) ∧
    ((∃ p ∈ r.phones, p.value = old_phone) → Phone.ofString new_phone = some ⟨new_phone⟩ →
      ∃ r', r.edit_phone old_phone new_phone = .ok r' ∧ r'.name = r.name ∧
        r'.birthday = r.birthday ∧
        r'.phones.map Phone.value = (r.phones.map Phone.value).erase old_phone ++ [new_phone]) ∧
    ((∃ p ∈ r.phones, p.value = old_phone) → Phone.ofString new_phone = none →
      ∃ r', r.edit_phone old_phone new_phone = .error r') := by
  refine ⟨fun h => ?_, fun hex hv => ?_, fun hex hv => ?_⟩
  · unfold Record.edit_phone
    rw [h]
  · have hsome : (r.find_phone old_phone).isSome := by
      rw [Record.find_phone, List.find?_isSome]
      obtain ⟨p, hp, hpv⟩ := hex
      exact ⟨p, hp, by simpa using hpv⟩
    obtain ⟨q, hq⟩ := Option.isSome_iff_exists.mp hsome
    refine ⟨⟨r.name, removeFirstPhone r.phones old_phone ++ [⟨new_phone⟩], r.birthday⟩,
      ?_, rfl, rfl, ?_⟩
    · unfold Record.edit_phone
      rw [hq, hv]
    · simp [removeFirstPhone_map_value]
  · have hsome : (r.find_phone old_phone).isSome := by
      rw [Record.find_phone, List.find?_isSome]
      obtain ⟨p, hp, hpv⟩ := hex
      exact ⟨p, hp, by simpa using hpv⟩
    obtain ⟨q, hq⟩ := Option.isSome_iff_exists.mp hsome
    refine ⟨{ r with phones := removeFirstPhone r.phones old_phone }, ?_⟩
    unfold Record.edit_phone
    rw [hq, hv]

/-- **C6 witness.** -/
theorem edit_phone_semantics_witness :
    (Record.mk "Ann" [⟨"1234567890"⟩] none).edit_phone "1234567890" "9999999999"
      = .ok ⟨"Ann", [⟨"9999999999"⟩], none⟩ := by
  obtain ⟨r', hr', hname, hbday, hvals⟩ :=
    (edit_phone_semantics ⟨"Ann", [⟨"1234567890"⟩], none⟩ "1234567890" "9999999999").2.1
      ⟨⟨"1234567890"⟩, by decide, rfl⟩ (by decide)
  rw [hr']
  have : r' = ⟨"Ann", [⟨"9999999999"⟩], none⟩ := by
    obtain ⟨n, ph, bd⟩ := r'
    simp only at hname hbday hvals
    subst hname hbday
    congr 1
    have : ph.map Phone.value = ["9999999999"] := by simpa using hvals
    cases ph with
    | nil => simp at this
    | cons a t =>
      cases t with
      | nil =>
        simp at this
        cases a
        exact congrArg (fun v => [Phone.mk v]) this
      | cons b u => simp at this
  rw [this]

-- =========================== CLAIM C9 ===========================

/-- **C9.** When a phone equal to `old` exists and `new` is not a valid
phone string, `edit_phone` raises and leaves the record mutated: `old`
has been removed and nothing was appended (the operation is not atomic
on failure). -/
theorem edit_phone_not_atomic (r : Record) (old_phone new_phone : String)
    (hex : ∃ p ∈ r.phones, p.value = old_phone)
    (hv : Phone.ofString new_phone = none) :
    r.edit_phone old_phone new_phone
        = .error { r with phones := removeFirstPhone r.phones old_phone } ∧
      (removeFirstPhone r.phones old_phone).map Phone.value
        = (r.phones.map Phone.value).erase old_phone := by
  have hsome : (r.find_phone old_phone).isSome := by
    rw [Record.find_phone, List.find?_isSome]
    obtain ⟨p, hp, hpv⟩ := hex
    exact ⟨p, hp, by simpa using hpv⟩
  obtain ⟨q, hq⟩ := Option.isSome_iff_exists.mp hsome
  refine ⟨?_, removeFirstPhone_map_value _ _⟩
  unfold Record.edit_phone
  rw [hq, hv]

/-- **C9 witness.** -/
theorem edit_phone_not_atomic_witness :
    (Record.mk "Ann" [⟨"1234567890"⟩] none).edit_phone "1234567890" "123"
      = .error ⟨"Ann", [], none⟩ := by
  have h := edit_phone_not_atomic ⟨"Ann", [⟨"1234567890"⟩], none⟩ "1234567890" "123"
    ⟨⟨"1234567890"⟩, by decide, rfl⟩ (by decide)
  exact h.1

-- =========================== CLAIM C8 ===========================

/-- In-place mutation of the record stored under key `k` (Python records
are mutated through the alias obtained from `find`). -/
def mutateAt (book : AddressBook) (k : String) (f : Record → Record) : AddressBook :=
  book.map fun p => if p.1 = k then (p.1, f p.2) else p

/-- Directory states reachable from the empty book by `add_record`,
`delete`, and in-place `Record` mutations (all of which leave the
record's name unchanged: `add_phone`, `remove_phone`, `edit_phone`,
`add_birthday` never touch `.name`). -/
inductive Reachable : AddressBook → Prop where
  | empty : Reachable []
  | add_record (b : AddressBook) (r : Record) : Reachable b → Reachable (b.add_record r)
  | delete (b : AddressBook) (n : String) : Reachable b → Reachable (b.delete n)
  | mutate (b : AddressBook) (k : String) (f : Record → Record)
      (hf : ∀ r, (f r).name = r.name) : Reachable b → Reachable (mutateAt b k f)

theorem add_phone_preserves_name (r : Record) (s : String) (r' : Record)
    (h : r.add_phone s = some r') : r'.name = r.name := by
  unfold Record.add_phone at h
  cases hp : Phone.ofString s <;> rw [hp] at h
  · cases h
  · cases h; rfl

theorem remove_phone_preserves_name (r : Record) (s : String) :
    (r.remove_phone s).name = r.name := by
  unfold Record.remove_phone
  cases r.find_phone s <;> rfl

theorem edit_phone_preserves_name (r : Record) (old_phone new_phone : String) :
    (∀ r', r.edit_phone old_phone new_phone = .ok r' → r'.name = r.name) ∧
    (∀ r', r.edit_phone old_phone new_phone = .error r' → r'.name = r.name) := by
  constructor
  · intro r' h
    unfold Record.edit_phone at h
    cases hf : r.find_phone old_phone <;> rw [hf] at h
    · cases h; rfl
    · cases hp : Phone.ofString new_phone <;> rw [hp] at h
      · cases h
      · cases h; rfl
  · intro r' h
    unfold Record.edit_phone at h
    cases hf : r.find_phone old_phone <;> rw [hf] at h
    · cases h
    · cases hp : Phone.ofString new_phone <;> rw [hp] at h
      · cases h; rfl
      · cases h

theorem add_birthday_preserves_name (r : Record) (s : String) (r' : Record)
    (h : r.add_birthday s = some r') : r'.name = r.name := by
  unfold Record.add_birthday at h
  cases hb : Birthday.ofString s <;> rw [hb] at h
  · cases h
  · cases h; rfl

theorem mem_dictSet (book : AddressBook) (k : String) (r : Record) (p : String × Record)
    (h : p ∈ dictSet book k r) : p = (k, r) ∨ p ∈ book := by
  induction book with
  | nil => simpa [dictSet] using h
  | cons q rest ih =>
    unfold dictSet at h
    by_cases hk : q.1 = k
    · rw [if_pos hk] at h
      rcases List.mem_cons.mp h with h | h
      · exact Or.inl h
      · exact Or.inr (List.mem_cons_of_mem _ h)
    · rw [if_neg hk] at h
      rcases List.mem_cons.mp h with h | h
      · exact Or.inr (h ▸ List.mem_cons_self _ _)
      · rcases ih h with h | h
        · exact Or.inl h
        · exact Or.inr (List.mem_cons_of_mem _ h)

/-- **C8.** In every state reachable from the empty Directory, each
stored record is keyed exactly by its own name. -/
theorem reachable_keyed_by_own_name {book : AddressBook} (h : Reachable book) :
    ∀ p ∈ book, p.1 = p.2.name := by
  induction h with
  | empty => intro p hp; cases hp
  | add_record b r _ ih =>
    intro p hp
    rcases mem_dictSet b r.name r p hp with h | h
    · rw [h]
    · exact ih p h
  | delete b n _ ih =>
    intro p hp
    exact ih p (List.mem_of_mem_filter hp)
  | mutate b k f hf _ ih =>
    intro p hp
    obtain ⟨q, hq, hpq⟩ := List.mem_map.mp hp
    by_cases hk : q.1 = k
    · rw [if_pos hk] at hpq
      rw [← hpq]
      simpa [hf q.2] using ih q hq
    · rw [if_neg hk] at hpq
      exact hpq ▸ ih q hq

/-- **C8 witness.** -/
theorem reachable_keyed_by_own_name_witness :
    ("Ann", Record.make "Ann").1 = ("Ann", Record.make "Ann").2.name :=
  reachable_keyed_by_own_name
    (Reachable.add_record [] (Record.make "Ann") Reachable.empty)
    ("Ann", Record.make "Ann") (by simp [AddressBook.add_record, Record.make, dictSet])

-- =========================== CLAIM C10 ===========================

theorem upcomingAux_error (today : Date) (l : List (String × Record))
    (h : ∃ p ∈ l, upcomingEntry today p.2 = .error ()) :
    upcomingAux today l = .error () := by
  induction l with
  | nil => simp at h
  | cons q rest ih =>
    obtain ⟨p, hp, hpe⟩ := h
    rcases List.mem_cons.mp hp with hp | hp
    · rw [hp] at hpe
      simp only [upcomingAux, hpe]
    · cases hq : upcomingEntry today q.2 with
      | error e => cases e; simp only [upcomingAux, hq]
      | ok o =>
        cases o with
        | none => simp only [upcomingAux, hq]; exact ih ⟨p, hp, hpe⟩
        | some entry => simp only [upcomingAux, hq, ih ⟨p, hp, hpe⟩]

/-- **C10.** If any record's birthday is February 29 and the reference
year is not a leap year, `get_upcoming_birthdays` raises (the
`replace(year=...)` projection fails) instead of returning a list. -/
theorem feb29_projection_raises (book : AddressBook) (today : Date) (k : String)
    (r : Record) (b : Date) (hmem : (k, r) ∈ book) (hb : r.birthday = some b)
    (hm : b.month = 2) (hd : b.day = 29) (hy : isLeap today.year = false) :
    book.get_upcoming_birthdays today = .error () := by
  apply upcomingAux_error
  refine ⟨(k, r), hmem, ?_⟩
  have hrep : b.replaceYear today.year = none := by
    unfold Date.replaceYear
    rw [if_neg]
    intro hc
    rw [hm, hd] at hc
    have : daysInMonth today.year 2 = 28 := by simp [daysInMonth, hy]
    omega
  simp only [upcomingEntry, hb, hrep]

/-- **C10 witness.** -/
theorem feb29_projection_raises_witness :
    AddressBook.get_upcoming_birthdays
        [("Ann", ⟨"Ann", [], some ⟨2024, 2, 29⟩⟩)] ⟨2023, 6, 1⟩ = .error () :=
  feb29_projection_raises _ ⟨2023, 6, 1⟩ "Ann" ⟨"Ann", [], some ⟨2024, 2, 29⟩⟩
    ⟨2024, 2, 29⟩ (by simp) rfl rfl rfl (by decide)

-- ======================= CLAIMS C1 AND C5 =======================

theorem mem_upcomingAux (today : Date) (l : List (String × Record))
    (out : List (String × Date)) (h : upcomingAux today l = .ok out)
    (n : String) (c : Date) :
    (n, c) ∈ out ↔ ∃ p ∈ l, upcomingEntry today p.2 = .ok (some (n, c)) := by
  induction l generalizing out with
  | nil =>
    cases h
    simp
  | cons q rest ih =>
    cases hq : upcomingEntry today q.2 with
    | error e =>
      simp only [upcomingAux, hq] at h
      cases h
    | ok o =>
      cases o with
      | none =>
        simp only [upcomingAux, hq] at h
        rw [ih out h]
        constructor
        · rintro ⟨p, hp, hpe⟩
          exact ⟨p, List.mem_cons_of_mem _ hp, hpe⟩
        · rintro ⟨p, hp, hpe⟩
          rcases List.mem_cons.mp hp with hp | hp
          · rw [hp, hq] at hpe
            simp at hpe
          · exact ⟨p, hp, hpe⟩
      | some entry =>
        simp only [upcomingAux, hq] at h
        cases hrec : upcomingAux today rest with
        | error e => rw [hrec] at h; cases h
        | ok l' =>
          rw [hrec] at h
          cases h
          rw [List.mem_cons, ih l' hrec]
          constructor
          · rintro (he | ⟨p, hp, hpe⟩)
            · exact ⟨q, List.mem_cons_self _ _, by rw [hq, he]⟩
            · exact ⟨p, List.mem_cons_of_mem _ hp, hpe⟩
          · rintro ⟨p, hp, hpe⟩
            rcases List.mem_cons.mp hp with hp | hp
            · rw [hp, hq] at hpe
              left
              exact (by simpa using hpe.symm)
            · right
              exact ⟨p, hp, hpe⟩

/-- The post-roll celebration date computed inside the loop. -/
def rollWeekend (birthday : Date) : Date :=
  if birthday.weekday ≥ 5 then birthday.addDays (7 - birthday.weekday) else birthday

theorem upcomingEntry_ok_some_elim (today : Date) (r : Record) (n : String) (c : Date)
    (h : upcomingEntry today r = .ok (some (n, c))) :
    ∃ b proj, r.birthday = some b ∧ b.replaceYear today.year = some proj ∧
      n = r.name ∧ Date.le today proj = true ∧ Date.le proj (today.addDays 7) = true ∧
      c = rollWeekend proj := by
  cases hb : r.birthday with
  | none =>
    simp only [upcomingEntry, hb] at h
    cases h
  | some b' =>
    simp only [upcomingEntry, hb] at h
    cases hrep : b'.replaceYear today.year with
    | none =>
      simp only [hrep] at h
      cases h
    | some proj =>
      simp only [hrep] at h
      by_cases hw : Date.le today proj = true ∧ Date.le proj (today.addDays 7) = true
      · rw [if_pos hw] at h
        have hnc : r.name = n ∧
            (if proj.weekday ≥ 5 then proj.addDays (7 - proj.weekday) else proj) = c := by
          simpa only [Except.ok.injEq, Option.some.injEq, Prod.mk.injEq] using h
        exact ⟨b', proj, rfl, hrep, hnc.1.symm, hw.1, hw.2, hnc.2.symm⟩
      · rw [if_neg hw] at h
        cases h

theorem upcomingEntry_ok_some_intro (today : Date) (r : Record) (b proj : Date)
    (hb : r.birthday = some b) (hrep : b.replaceYear today.year = some proj)
    (hw1 : Date.le today proj = true) (hw2 : Date.le proj (today.addDays 7) = true) :
    upcomingEntry today r = .ok (some (r.name, rollWeekend proj)) := by
  simp only [upcomingEntry, hb, hrep]
  rw [if_pos ⟨hw1, hw2⟩]
  rfl

/-- **C1 (amended).** For a record with a birthday whose projection onto
the reference year succeeds, and a book whose record names are distinct,
the contact appears in the result exactly when the projected date falls
within `[today, today + 7 days]` inclusive — an 8-day window, one day
wider than the claimed `[today, today + 6 days]`. -/
theorem upcoming_window_iff (book : AddressBook) (today : Date)
    (lst : List (String × Date)) (k : String) (r : Record) (b proj : Date)
    (hnodup : (book.map fun p => p.2.name).Nodup)
    (hok : book.get_upcoming_birthdays today = .ok lst)
    (hmem : (k, r) ∈ book) (hb : r.birthday = some b)
    (hrep : b.replaceYear today.year = some proj) :
    (∃ c, (r.name, c) ∈ lst) ↔
      (Date.le today proj = true ∧ Date.le proj (today.addDays 7) = true) := by
  constructor
  · rintro ⟨c, hc⟩
    obtain ⟨p, hp, hpe⟩ := (mem_upcomingAux today book lst hok r.name c).mp hc
    obtain ⟨b', proj', hb', hrep', hn, hw1, hw2, _⟩ :=
      upcomingEntry_ok_some_elim today p.2 r.name c hpe
    have hpr : p = (k, r) :=
      List.inj_on_of_nodup_map hnodup hp hmem hn.symm
    rw [hpr] at hb'
    have hb2 : r.birthday = some b' := hb'
    rw [hb] at hb2
    injection hb2 with hb3
    rw [← hb3] at hrep'
    rw [hrep] at hrep'
    injection hrep' with hproj
    rw [← hproj] at hw1 hw2
    exact ⟨hw1, hw2⟩
  · rintro ⟨hw1, hw2⟩
    refine ⟨rollWeekend proj, ?_⟩
    rw [mem_upcomingAux today book lst hok]
    exact ⟨(k, r), hmem, upcomingEntry_ok_some_intro today r b proj hb hrep hw1 hw2⟩

/-- **C1 witness.** A projected birthday exactly 7 days ahead satisfies
the window condition and the contact is reported. -/
theorem upcoming_window_iff_witness :
    ∃ c, ("Bob", c) ∈ [(("Bob" : String), (⟨2024, 1, 8⟩ : Date))] :=
  (upcoming_window_iff [("Bob", ⟨"Bob", [], some ⟨2000, 1, 8⟩⟩)] ⟨2024, 1, 1⟩
    [("Bob", ⟨2024, 1, 8⟩)] "Bob" ⟨"Bob", [], some ⟨2000, 1, 8⟩⟩ ⟨2000, 1, 8⟩ ⟨2024, 1, 8⟩
    (by decide) (by rfl) (by decide) rfl rfl).mpr ⟨by decide, by decide⟩

/-- **C1 counterexample.** With reference date Monday 2024-01-01 and a
birthday projecting to 2024-01-08 — exactly 7 days ahead, outside the
claimed `[referenceDate, referenceDate + 6 days]` window — the contact
IS included, so inclusion is not equivalent to the claimed 6-day
window. -/
theorem upcoming_window_claim_counterexample :
    AddressBook.get_upcoming_birthdays
        [("Bob", ⟨"Bob", [], some ⟨2000, 1, 8⟩⟩)] ⟨2024, 1, 1⟩
      = .ok [("Bob", ⟨2024, 1, 8⟩)] ∧
    Date.le ⟨2024, 1, 8⟩ (Date.addDays ⟨2024, 1, 1⟩ 6) = false := by
  constructor
  · rfl
  · decide

theorem Date.replaceYear_valid {b : Date} {y : Nat} {proj : Date}
    (h : b.replaceYear y = some proj) : proj.Valid := by
  unfold Date.replaceYear at h
  split at h
  · rename_i hc
    cases h
    exact ⟨hc.1, hc.2.2.1, hc.2.2.2.1, hc.2.2.2.2.1, hc.2.2.2.2.2⟩
  · cases h

/-- **C5.** Every reported entry comes from a record whose projected
birthday is in the window, and its celebration date is the projection
rolled off weekends: Saturday (weekday 5) is reported two days later and
Sunday (weekday 6) one day later — in both cases a Monday — while
weekdays are reported as-is; the roll offset is `7 - weekday` in the
Monday=0..Sunday=6 convention. -/
theorem weekend_roll_reported (book : AddressBook) (today : Date)
    (lst : List (String × Date)) (n : String) (c : Date)
    (hok : book.get_upcoming_birthdays today = .ok lst)
    (hmem : (n, c) ∈ lst) :
    ∃ p ∈ book, ∃ b proj, p.2.birthday = some b ∧
      b.replaceYear today.year = some proj ∧ n = p.2.name ∧
      c = (if proj.weekday ≥ 5 then proj.addDays (7 - proj.weekday) else proj) ∧
      (proj.weekday = 5 → c = proj.addDays 2 ∧ c.weekday = 0) ∧
      (proj.weekday = 6 → c = proj.addDays 1 ∧ c.weekday = 0) ∧
      (proj.weekday < 5 → c = proj) := by
  obtain ⟨p, hp, hpe⟩ := (mem_upcomingAux today book lst hok n c).mp hmem
  obtain ⟨b, proj, hb, hrep, hn, hw1, hw2, hc⟩ :=
    upcomingEntry_ok_some_elim today p.2 n c hpe
  have hval : proj.Valid := Date.replaceYear_valid hrep
  refine ⟨p, hp, b, proj, hb, hrep, hn, hc, ?_, ?_, ?_⟩
  · intro h5
    have hcel : c = proj.addDays 2 := by
      rw [hc]
      unfold rollWeekend
      rw [h5]
      norm_num
    refine ⟨hcel, ?_⟩
    rw [hcel, Date.weekday_addDays 2 hval, h5]
  · intro h6
    have hcel : c = proj.addDays 1 := by
      rw [hc]
      unfold rollWeekend
      rw [h6]
      norm_num
    refine ⟨hcel, ?_⟩
    rw [hcel, Date.weekday_addDays 1 hval, h6]
  · intro hlt
    rw [hc]
    unfold rollWeekend
    rw [if_neg (by omega)]

/-- **C5 witness.** 2024-01-06 is a Saturday; the celebration date is
rolled to Monday 2024-01-08. -/
theorem weekend_roll_reported_witness :
    ∃ p ∈ [(("Sam" : String), Record.mk "Sam" [] (some ⟨2000, 1, 6⟩))], ∃ b proj,
      p.2.birthday = some b ∧
      b.replaceYear (2024 : Nat) = some proj ∧ ("Sam" : String) = p.2.name ∧
      (⟨2024, 1, 8⟩ : Date)
          = (if proj.weekday ≥ 5 then proj.addDays (7 - proj.weekday) else proj) ∧
      (proj.weekday = 5 → (⟨2024, 1, 8⟩ : Date) = proj.addDays 2 ∧
        Date.weekday ⟨2024, 1, 8⟩ = 0) ∧
      (proj.weekday = 6 → (⟨2024, 1, 8⟩ : Date) = proj.addDays 1 ∧
        Date.weekday ⟨2024, 1, 8⟩ = 0) ∧
      (proj.weekday < 5 → (⟨2024, 1, 8⟩ : Date) = proj) :=
  weekend_roll_reported [("Sam", Record.mk "Sam" [] (some ⟨2000, 1, 6⟩))] ⟨2024, 1, 1⟩
    [("Sam", ⟨2024, 1, 8⟩)] "Sam" ⟨2024, 1, 8⟩ (by rfl) (by decide)

-- =========================== CLAIM C3 ===========================

theorem char_digit_toNat (v : Nat) (h : v ≤ 9) : (Char.ofNat (48 + v)).toNat = 48 + v := by
  interval_cases v <;> decide

theorem char_digit_isDigit (v : Nat) (h : v ≤ 9) : (Char.ofNat (48 + v)).isDigit = true := by
  interval_cases v <;> decide

theorem digitVal_ofNat (v : Nat) (h : v ≤ 9) : digitVal (Char.ofNat (48 + v)) = v := by
  unfold digitVal
  rw [char_digit_toNat v h]
  omega

theorem dayAlts_pad2 (d : Nat) (rest : List Char) (h1 : 1 ≤ d) (h31 : d ≤ 31) :
    ∃ tail, dayAlts (pad2 d ++ rest) = (d, rest) :: tail := by
  interval_cases d <;> exact ⟨_, rfl⟩

theorem monthAlts_pad2 (m : Nat) (rest : List Char) (h1 : 1 ≤ m) (h12 : m ≤ 12) :
    ∃ tail, monthAlts (pad2 m ++ rest) = (m, rest) :: tail := by
  interval_cases m <;> exact ⟨_, rfl⟩

theorem year4_pad4 (y : Nat) (h : y ≤ 9999) : year4 (pad4 y) = some (y, []) := by
  have e1 := char_digit_isDigit (y / 1000 % 10) (by omega)
  have e2 := char_digit_isDigit (y / 100 % 10) (by omega)
  have e3 := char_digit_isDigit (y / 10 % 10) (by omega)
  have e4 := char_digit_isDigit (y % 10) (by omega)
  have hval : 1000 * digitVal (Char.ofNat (48 + y / 1000 % 10))
      + 100 * digitVal (Char.ofNat (48 + y / 100 % 10))
      + 10 * digitVal (Char.ofNat (48 + y / 10 % 10))
      + digitVal (Char.ofNat (48 + y % 10)) = y := by
    rw [digitVal_ofNat _ (by omega), digitVal_ofNat _ (by omega),
      digitVal_ofNat _ (by omega), digitVal_ofNat _ (by omega)]
    omega
  simp only [pad4, year4]
  rw [if_pos ⟨e1, e2, e3, e4⟩, hval]

theorem tryAlts_cons {α : Type} (v : Nat) (r : List Char) (tail : List (Nat × List Char))
    (k : Nat → List Char → Option α) (x : α) (h : k v r = some x) :
    tryAlts ((v, r) :: tail) k = some x := by
  simp [tryAlts, h]

theorem parseDMY_canonical (d m y : Nat) (hd1 : 1 ≤ d) (hd31 : d ≤ 31)
    (hm1 : 1 ≤ m) (hm12 : m ≤ 12) (hy : y ≤ 9999) :
    parseDMY (pad2 d ++ ('.' :: (pad2 m ++ ('.' :: pad4 y)))) = some (d, m, y) := by
  obtain ⟨tailD, hD⟩ := dayAlts_pad2 d ('.' :: (pad2 m ++ ('.' :: pad4 y))) hd1 hd31
  unfold parseDMY
  rw [hD]
  apply tryAlts_cons
  simp only [parseDayCont]
  obtain ⟨tailM, hM⟩ := monthAlts_pad2 m ('.' :: pad4 y) hm1 hm12
  rw [hM]
  apply tryAlts_cons
  simp only [parseMonthCont]
  unfold parseYearEnd
  rw [year4_pad4 y hy]

/-- **C3 (amended).** For every canonical `DD.MM.YYYY` string — the
zero-padded rendering of a valid calendar date — constructing a Birthday
succeeds and re-formatting the result reproduces the original string. -/
theorem birthday_roundtrip_canonical (s : String) (dte : Date)
    (hv : dte.Valid) (hy : dte.year ≤ 9999) (hs : s = Birthday.toText dte) :
    ∃ d', Birthday.ofString s = some d' ∧ Birthday.toText d' = s := by
  obtain ⟨h1, h2, h3, h4, h5⟩ := hv
  have hle31 : daysInMonth dte.year dte.month ≤ 31 := by
    unfold daysInMonth
    split
    · split <;> omega
    · split <;> omega
  refine ⟨dte, ?_, hs.symm⟩
  rw [hs]
  unfold Birthday.ofString
  have htl : (Birthday.toText dte).toList
      = pad2 dte.day ++ ('.' :: (pad2 dte.month ++ ('.' :: pad4 dte.year))) := by
    show (pad2 dte.day ++ '.' :: pad2 dte.month) ++ '.' :: pad4 dte.year = _
    rw [List.append_assoc, List.cons_append]
  rw [htl, parseDMY_canonical dte.day dte.month dte.year h4 (le_trans h5 hle31) h2 h3 hy]
  show (if 1 ≤ dte.year ∧ dte.year ≤ 9999 ∧ 1 ≤ dte.month ∧ dte.month ≤ 12 ∧
      1 ≤ dte.day ∧ dte.day ≤ daysInMonth dte.year dte.month
    then some (⟨dte.year, dte.month, dte.day⟩ : Date) else none) = some dte
  rw [if_pos ⟨h1, hy, h2, h3, h4, h5⟩]

/-- **C3 witness.** -/
theorem birthday_roundtrip_canonical_witness :
    ∃ d', Birthday.ofString "29.03.1998" = some d' ∧ Birthday.toText d' = "29.03.1998" :=
  birthday_roundtrip_canonical "29.03.1998" ⟨1998, 3, 29⟩ (by decide) (by decide) (by decide)

/-- **C3 counterexample.** The parser is lenient: the malformed
(non-`DD.MM.YYYY`) string `"1.1.2023"` is accepted rather than rejected,
and it does not round-trip — it re-formats to `"01.01.2023"`. -/
theorem birthday_roundtrip_counterexample :
    Birthday.ofString "1.1.2023" = some ⟨2023, 1, 1⟩ ∧
    Birthday.toText ⟨2023, 1, 1⟩ = "01.01.2023" ∧
    ("01.01.2023" : String) ≠ "1.1.2023" := by
  refine ⟨by decide, by decide, by decide⟩
